import Mathlib

/-!
Verification of the todo.txt task manager (`todotxtlib.py`, `task_shell.py`).

The development shallowly embeds the Python source:

* `matchTaskLine` embeds `re.match` of `Task.TASK_PATTERN`, the anchored
  pattern
  `^(?P<completed>x\s*)?(?P<completed_date>\d{4}-\d{2}-\d{2})?\s*`
  `(?P<priority>\([A-Za-z]\))?\s*(?P<created_date>\d{4}-\d{2}-\d{2})?\s*`
  `(?P<description>.+)$`,
  as a leftmost-greedy backtracking search: every quantified component
  contributes a list of candidate continuations in the engine's preference
  order (greedy first), and `List.findSome?` returns the first full match.
* `scanTags` embeds `re.findall` of `\s+@(\w+)` / `\s+\+(\w+)` on the
  captured description, `subTags` embeds `re.sub` of `\s*[@+]\w+` with `""`:
  both attempt a match at each position and advance by one character on
  failure, exactly like the CPython scanner.  Backtracking inside `\s+`/`\s*`
  never helps (shorter whitespace prefixes put a whitespace character where
  the `[@+]` marker must be), so only the maximal whitespace run is tried.
* `Task.init` embeds `Task.__init__`, including the Python
  `created_date or datetime.now().strftime(...)` defaulting; the current
  date is passed explicitly as `today`.
* `Task.from_task_string`, `Task.to_string`, `Task.mark_completed`,
  `read_tasks`, and the shell operations `do_complete`, `do_remove`,
  `do_switch`, `do_add` (task construction core) follow the source line by
  line.  `ValueError` is modelled by `Option`.

Regex character classes are the ASCII fragments of Python's `\s`, `\w`,
`[A-Za-z]`; all strings the theorems push through them are ASCII, and
`[A-Za-z]` is ASCII-only in Python too.  The Unicode-aware string
predicates `str.isalpha`/`str.isupper` used by `PriorityValidator` are
not reproduced from the Unicode tables; they are passed to the validator
as explicit function parameters, exactly as `datetime.now()` is passed as
`today`.
-/

namespace TodoTxt

/-- ASCII fragment of Python's `\s` (also what `str.strip()` removes). -/
def isWsChar (c : Char) : Bool :=
  c == ' ' || c == '\t' || c == '\n' || c == '\r' || c == '\x0b' || c == '\x0c'

/-- ASCII fragment of Python's `\w`: letters, digits, underscore. -/
def isWordChar (c : Char) : Bool :=
  c.isAlphanum || c == '_'

/-- Python's `[A-Za-z]`. -/
def isAsciiLetter (c : Char) : Bool :=
  ('A' ≤ c && c ≤ 'Z') || ('a' ≤ c && c ≤ 'z')

/-- Python `str.strip()` on a character list. -/
def stripChars (l : List Char) : List Char :=
  ((l.dropWhile isWsChar).reverse.dropWhile isWsChar).reverse

/-- Python `str.strip()`. -/
def pyStrip (s : String) : String :=
  String.mk (stripChars s.data)

/-- Python `t.startswith(p)`. -/
def pyStartswith (t p : String) : Bool :=
  p.data.isPrefixOf t.data

/-- Match `\d{4}-\d{2}-\d{2}` at the front of the input; on success return
the matched text and the remainder. -/
def dateAt : List Char → Option (String × List Char)
  | y1 :: y2 :: y3 :: y4 :: h1 :: m1 :: m2 :: h2 :: d1 :: d2 :: rest =>
    if y1.isDigit && y2.isDigit && y3.isDigit && y4.isDigit && h1 == '-' &&
        m1.isDigit && m2.isDigit && h2 == '-' && d1.isDigit && d2.isDigit then
      some (String.mk [y1, y2, y3, y4, h1, m1, m2, h2, d1, d2], rest)
    else
      none
  | _ => none

/-- Match `\([A-Za-z]\)` at the front of the input; on success return the
captured letter (the source takes `match.group("priority")[1]`) and the
remainder. -/
def prioAt : List Char → Option (Char × List Char)
  | '(' :: c :: ')' :: rest => if isAsciiLetter c then some (c, rest) else none
  | _ => none

/-- Candidate remainders of a greedy `\s*`, in the engine's preference
order: the maximal whitespace run first, then ever shorter prefixes, down
to consuming nothing. -/
def wsCands (l : List Char) : List (List Char) :=
  let m := (l.takeWhile isWsChar).length
  (List.range (m + 1)).map fun k => l.drop (m - k)

/-- Candidates of the optional group `(?P<completed>x\s*)?`: matched (with
the inner `\s*` greedy) before unmatched. -/
def g1Cands (l : List Char) : List (Bool × List Char) :=
  match l with
  | 'x' :: rest => ((wsCands rest).map fun r => (true, r)) ++ [(false, l)]
  | _ => [(false, l)]

/-- Candidates of an optional date group: matched before unmatched. -/
def dateCands (l : List Char) : List (Option String × List Char) :=
  match dateAt l with
  | some (d, rest) => [(some d, rest), (none, l)]
  | none => [(none, l)]

/-- Candidates of the optional priority group: matched before unmatched. -/
def prioCands (l : List Char) : List (Option Char × List Char) :=
  match prioAt l with
  | some (c, rest) => [(some c, rest), (none, l)]
  | none => [(none, l)]

/-- Match `(?P<description>.+)$` against the whole remainder: `.` excludes
newlines and `$` also matches just before one final trailing newline. -/
def descMatch (l : List Char) : Option (List Char) :=
  let body := if l.getLast? = some '\n' then l.dropLast else l
  if body ≠ [] ∧ '\n' ∉ body then some body else none

/-- The named groups captured by a successful `TASK_PATTERN` match. -/
structure RawGroups where
  completed : Bool
  completed_date : Option String
  priority : Option Char
  created_date : Option String
  description : List Char
deriving Repr, DecidableEq

/-- `Task.TASK_PATTERN.match(line)`: leftmost-greedy backtracking over the
candidate lists of the successive pattern components. -/
def matchTaskLine (s : String) : Option RawGroups :=
  (g1Cands s.data).findSome? fun p1 =>
    (dateCands p1.2).findSome? fun p2 =>
      (wsCands p2.2).findSome? fun r3 =>
        (prioCands r3).findSome? fun p3 =>
          (wsCands p3.2).findSome? fun r5 =>
            (dateCands r5).findSome? fun p4 =>
              (wsCands p4.2).findSome? fun r7 =>
                (descMatch r7).map fun d =>
                  ⟨p1.1, p2.1, p3.1, p4.1, d⟩

/-- Attempt `\s*[@+]\w+` at the start of `l` (the step of `re.sub`); on
success return the remainder after the whole match. -/
def attemptSub (l : List Char) : Option (List Char) :=
  match l.dropWhile isWsChar with
  | m :: w :: r =>
    if (m == '@' || m == '+') && isWordChar w then
      some ((w :: r).dropWhile isWordChar)
    else
      none
  | _ => none

/-- The scanning loop of `re.sub(r"\s*[@+]\w+", "", text)`: attempt a
match at every position, delete the matched text, advance one character on
failure.  Structural recursion on an explicit fuel; every step consumes at
least one character, so fuel `l.length` is always sufficient (the
fuel-exhausted arm is never reached, see `subTagsF_fuel`). -/
def subTagsF : Nat → List Char → List Char
  | _, [] => []
  | 0, l => l
  | fuel + 1, c :: cs =>
    match attemptSub (c :: cs) with
    | some rest => subTagsF fuel rest
    | none => c :: subTagsF fuel cs

/-- `re.sub(r"\s*[@+]\w+", "", text)`. -/
def subTags (l : List Char) : List Char :=
  subTagsF l.length l

/-- Attempt `\s+marker(\w+)` at the start of `l` (the step of
`re.findall`); on success return the captured word and the remainder. -/
def attemptFind (marker : Char) (l : List Char) : Option (String × List Char) :=
  match l with
  | [] => none
  | c :: cs =>
    if isWsChar c then
      match (c :: cs).dropWhile isWsChar with
      | m :: w :: r =>
        if m == marker && isWordChar w then
          some (String.mk ((w :: r).takeWhile isWordChar),
                (w :: r).dropWhile isWordChar)
        else
          none
      | _ => none
    else
      none

/-- The scanning loop of `re.findall(r"\s+" + marker + r"(\w+)", text)`:
attempt a match at every position, continue after the match, advance one
character on failure.  Structural recursion on fuel, as in `subTagsF`. -/
def scanTagsF (marker : Char) : Nat → List Char → List String
  | _, [] => []
  | 0, _ => []
  | fuel + 1, c :: cs =>
    match attemptFind marker (c :: cs) with
    | some (w, rest) => w :: scanTagsF marker fuel rest
    | none => scanTagsF marker fuel cs

/-- `re.findall(r"\s+" + marker + r"(\w+)", text)`. -/
def scanTags (marker : Char) (l : List Char) : List String :=
  scanTagsF marker l.length l

/-- No position of the list starts a literal `[@+]\w+` occurrence: no `@`
or `+` is immediately followed by a word character.  This is the formal
reading of "the text contains no literal `@word`/`+word` substrings". -/
def noTagLike : List Char → Bool
  | [] => true
  | [_] => true
  | a :: b :: rest => !((a == '@' || a == '+') && isWordChar b) && noTagLike (b :: rest)

/-- The `Task` entity of `todotxtlib.py`.  `priority` holds the single
captured letter (`None`/empty modelled as `none`), `completed_date` the
optional date string, `created_date` the string the constructor always
populates. -/
structure Task where
  description : String
  completed : Bool
  priority : Option Char
  created_date : String
  completed_date : Option String
  tags : List String
  contexts : List String
  projects : List String
deriving Repr, DecidableEq

/-- `Task.__init__`: note `self.created_date = created_date or
datetime.now().strftime("%Y-%m-%d")` — a `None` (or empty, hence falsy)
`created_date` is replaced by the current date `today`, whichever path
constructed the task. -/
def Task.init (today : String) (description : String) (completed : Bool)
    (priority : Option Char) (created_date : Option String)
    (completed_date : Option String) (tags : List String)
    (contexts : List String) (projects : List String) : Task :=
  { description := description
    completed := completed
    priority := priority
    created_date :=
      match created_date with
      | some d => if d = "" then today else d
      | none => today
    completed_date := completed_date
    tags := tags
    contexts := contexts
    projects := projects }

/-- `Task.from_task_string` (raising `ValueError` is `none`). -/
def Task.from_task_string (today : String) (task_line : String) : Option Task :=
  match matchTaskLine task_line with
  | none => none
  | some g =>
    let contexts := scanTags '@' g.description
    let tags := scanTags '+' g.description
    let projects := tags.filter fun t => !(contexts.any fun c => pyStartswith t c)
    let description := String.mk (stripChars (subTags g.description))
    some (Task.init today description g.completed g.priority g.created_date
      g.completed_date (tags.filter fun t => !(projects.contains t)) contexts
      projects)

/-- `Task.to_string`. -/
def Task.to_string (t : Task) : String :=
  let s1 :=
    if t.completed then
      "x " ++ (match t.completed_date with
               | some d => if d = "" then "" else d ++ " "
               | none => "")
    else ""
  let s2 := match t.priority with
            | some p => "(" ++ String.mk [p] ++ ") "
            | none => ""
  let s3 := t.created_date ++ " "
  let s4 := t.description ++ " "
  let ctxStr := String.intercalate " " (t.contexts.map fun c => "@" ++ c)
  let s5 := if ctxStr = "" then "" else ctxStr ++ " "
  let prjStr := String.intercalate " " (t.projects.map fun p => "+" ++ p)
  let s6 := if prjStr = "" then "" else prjStr ++ " "
  let tagStr := String.intercalate " " (t.tags.map fun g => "+" ++ g)
  let s7 := if tagStr = "" then "" else tagStr ++ " "
  pyStrip (s1 ++ s2 ++ s3 ++ s4 ++ s5 ++ s6 ++ s7)

/-- `Task.mark_completed` (the current date passed explicitly). -/
def Task.mark_completed (today : String) (t : Task) : Task :=
  { t with completed := true, completed_date := some today }

/-- `TodoTxtFileManager.read_tasks` over the file's lines: strip each
line, skip blanks, parse the rest; a `ValueError` aborts the whole read. -/
def read_tasks (today : String) : List String → Option (List Task)
  | [] => some []
  | l :: ls =>
    let task_line := pyStrip l
    if task_line = "" then read_tasks today ls
    else
      match Task.from_task_string today task_line with
      | none => none
      | some t => (read_tasks today ls).map fun ts => t :: ts

/-- `PriorityValidator.validate` of `task_shell.py`: accepts (does not
raise) iff the stripped text is empty or
`len(text) == 1 and text.isalpha() and text.isupper()`.  Python's
`str.isalpha`/`str.isupper` consult the Unicode character tables (they
accept, e.g., a single `'É'` or `'Ω'`), which this embedding does not
reproduce; like `datetime.now()` they are taken as explicit parameters
`isalpha`, `isupper` — on a one-character string each built-in is exactly
the per-character test. -/
def PriorityValidator.validate (isalpha isupper : Char → Bool)
    (s : String) : Bool :=
  match (pyStrip s).data with
  | [] => true
  | [c] => isalpha c && isupper c
  | _ => false

/-- The task store visible to the shell: the task list `self.td` and the
backing file's lines (what `TodoTxtFileManager.write_tasks` last wrote). -/
structure StoreState where
  tasks : List Task
  file : List String
deriving Repr, DecidableEq

/-- `save_tasks` / `write_tasks`: full rewrite of the backing file, one
serialized task per line. -/
def save_tasks (st : StoreState) : StoreState :=
  { st with file := st.tasks.map Task.to_string }

/-- Mark the task at 0-based position `n` completed. -/
def completeNth (today : String) : Nat → List Task → List Task
  | _, [] => []
  | 0, t :: ts => t.mark_completed today :: ts
  | n + 1, t :: ts => t :: completeNth today n ts

/-- `list.pop(n)` at 0-based position `n`: the removed task and the rest. -/
def removeNth : Nat → List Task → Option Task × List Task
  | _, [] => (none, [])
  | 0, t :: ts => (some t, ts)
  | n + 1, t :: ts =>
    let p := removeNth n ts
    (p.1, t :: p.2)

/-- `TaskShell.do_complete` with the already-parsed integer argument:
`task_id = int(arg) - 1`; mutate and save only if `0 <= task_id <
len(self.td)`. -/
def do_complete (today : String) (arg : Int) (st : StoreState) : StoreState :=
  let task_id := arg - 1
  if 0 ≤ task_id ∧ task_id < st.tasks.length then
    save_tasks { st with tasks := completeNth today task_id.toNat st.tasks }
  else st

/-- `TaskShell.do_remove` with the already-parsed integer argument:
returns the popped task (what the shell echoes) and the resulting state. -/
def do_remove (arg : Int) (st : StoreState) : Option Task × StoreState :=
  let task_id := arg - 1
  if 0 ≤ task_id ∧ task_id < st.tasks.length then
    let p := removeNth task_id.toNat st.tasks
    (p.1, save_tasks { st with tasks := p.2 })
  else (none, st)

/-- The core of `TaskShell.do_add` after the interactive prompts: the
description must be non-blank, the priority must pass
`PriorityValidator` (with the Unicode character tests passed through as
parameters); on success the constructed task (created date defaulted to
`today`, no completion, no tags) is appended and the store saved. -/
def do_add (isalpha isupper : Char → Bool) (today : String)
    (descRaw priorityRaw : String) (projects contexts : List String)
    (st : StoreState) : Option (Task × StoreState) :=
  let task_text := pyStrip descRaw
  if task_text = "" then none
  else if !(PriorityValidator.validate isalpha isupper priorityRaw) then none
  else
    let p := pyStrip priorityRaw
    let prio : Option Char := match p.data with | [c] => some c | _ => none
    let task := Task.init today task_text false prio none none [] contexts projects
    some (task, save_tasks { st with tasks := st.tasks ++ [task] })

/-- The state `TaskShell.do_switch` acts on: the shell's own store
(`self.td`, `self.td_manager`) plus the module-level globals `td` and
`td_manager` that the method rebinds (`global td_manager, td`). -/
structure SwitchWorld where
  shellTasks : List Task
  shellPath : String
  globalPath : Option String
  globalTasks : Option (List Task)
deriving Repr, DecidableEq

/-- `TaskShell.do_switch`: if no file was selected, nothing happens;
otherwise a new manager for the selected file is bound to the module
global `td_manager` and its `read_tasks()` result to the module global
`td`.  `self.td` and `self.td_manager` are never reassigned.  If
`read_tasks` raises (`none`), the exception propagates after `td_manager`
was already rebound. -/
def do_switch (today : String) (selected : Option String)
    (readFile : String → List String) (w : SwitchWorld) : SwitchWorld :=
  match selected with
  | none => w
  | some f =>
    match read_tasks today (readFile f) with
    | some ts => { w with globalPath := some f, globalTasks := some ts }
    | none => { w with globalPath := some f }

/-! General lemmas about the embedded scanners and matcher. -/

theorem attemptSub_length {l l' : List Char} (h : attemptSub l = some l') :
    l'.length < l.length := by
  unfold attemptSub at h
  have hd : (l.dropWhile isWsChar).length ≤ l.length :=
    (List.dropWhile_sublist _).length_le
  split at h
  · rename_i m w r heq
    split at h
    · injection h with h1
      subst h1
      have h2 : ((w :: r).dropWhile isWordChar).length ≤ (w :: r).length :=
        (List.dropWhile_sublist _).length_le
      have hlen : (m :: w :: r).length ≤ l.length := heq ▸ hd
      simp only [List.length_cons] at hlen h2 ⊢
      omega
    · cases h
  · cases h

theorem attemptFind_length {marker : Char} {l : List Char} {w : String}
    {l' : List Char} (h : attemptFind marker l = some (w, l')) :
    l'.length < l.length := by
  unfold attemptFind at h
  split at h
  · cases h
  · rename_i c cs
    split at h
    · rename_i hc
      split at h
      · rename_i m w0 r heq
        split at h
        · injection h with h1
          injection h1 with h2 h3
          subst h3
          have hd : ((c :: cs).dropWhile isWsChar).length ≤ cs.length := by
            have he : (c :: cs).dropWhile isWsChar = cs.dropWhile isWsChar := by
              simp [List.dropWhile, hc]
            rw [he]
            exact (List.dropWhile_sublist _).length_le
          have hlen : (m :: w0 :: r).length ≤ cs.length := heq ▸ hd
          have h2 : ((w0 :: r).dropWhile isWordChar).length ≤ (w0 :: r).length :=
            (List.dropWhile_sublist _).length_le
          simp only [List.length_cons] at hlen h2 ⊢
          omega
        · cases h
      · cases h
    · cases h

theorem subTagsF_nil (f : Nat) : subTagsF f [] = [] := by
  cases f <;> rfl

theorem scanTagsF_nil (marker : Char) (f : Nat) : scanTagsF marker f [] = [] := by
  cases f <;> rfl

/-- Any sufficient fuel computes the same result as fuel `l.length`. -/
theorem subTagsF_fuel :
    ∀ (n f : Nat) (l : List Char), l.length ≤ f → l.length ≤ n →
      subTagsF f l = subTagsF l.length l := by
  intro n
  induction n with
  | zero =>
    intro f l hf hn
    have hl : l = [] := List.length_eq_zero.mp (Nat.le_zero.mp hn)
    subst hl
    rw [subTagsF_nil, subTagsF_nil]
  | succ n ih =>
    intro f l hf hn
    cases l with
    | nil => rw [subTagsF_nil, subTagsF_nil]
    | cons c cs =>
      cases f with
      | zero => simp at hf
      | succ f' =>
        simp only [List.length_cons] at hf hn
        cases hma : attemptSub (c :: cs) with
        | some rest =>
          have hlt := attemptSub_length hma
          simp only [List.length_cons] at hlt
          simp only [subTagsF, List.length_cons, hma]
          rw [ih f' rest (by omega) (by omega),
            ih cs.length rest (by omega) (by omega)]
        | none =>
          simp only [subTagsF, List.length_cons, hma]
          rw [ih f' cs (by omega) (by omega)]

theorem scanTagsF_fuel {marker : Char} :
    ∀ (n f : Nat) (l : List Char), l.length ≤ f → l.length ≤ n →
      scanTagsF marker f l = scanTagsF marker l.length l := by
  intro n
  induction n with
  | zero =>
    intro f l hf hn
    have hl : l = [] := List.length_eq_zero.mp (Nat.le_zero.mp hn)
    subst hl
    rw [scanTagsF_nil, scanTagsF_nil]
  | succ n ih =>
    intro f l hf hn
    cases l with
    | nil => rw [scanTagsF_nil, scanTagsF_nil]
    | cons c cs =>
      cases f with
      | zero => simp at hf
      | succ f' =>
        simp only [List.length_cons] at hf hn
        cases hma : attemptFind marker (c :: cs) with
        | some p =>
          obtain ⟨w, rest⟩ := p
          have hlt := attemptFind_length hma
          simp only [List.length_cons] at hlt
          simp only [scanTagsF, List.length_cons, hma]
          rw [ih f' rest (by omega) (by omega),
            ih cs.length rest (by omega) (by omega)]
        | none =>
          simp only [scanTagsF, List.length_cons, hma]
          rw [ih f' cs (by omega) (by omega)]

theorem subTags_nil : subTags [] = [] := rfl

theorem subTags_cons_some {c : Char} {cs rest : List Char}
    (h : attemptSub (c :: cs) = some rest) :
    subTags (c :: cs) = subTags rest := by
  have hlt := attemptSub_length h
  simp only [List.length_cons] at hlt
  unfold subTags
  simp only [List.length_cons, subTagsF, h]
  exact subTagsF_fuel rest.length cs.length rest (by omega) le_rfl

theorem subTags_cons_none {c : Char} {cs : List Char}
    (h : attemptSub (c :: cs) = none) :
    subTags (c :: cs) = c :: subTags cs := by
  unfold subTags
  simp only [List.length_cons, subTagsF, h]

theorem scanTags_cons_some {marker c : Char} {cs : List Char} {w : String}
    {rest : List Char} (h : attemptFind marker (c :: cs) = some (w, rest)) :
    scanTags marker (c :: cs) = w :: scanTags marker rest := by
  have hlt := attemptFind_length h
  simp only [List.length_cons] at hlt
  unfold scanTags
  simp only [List.length_cons, scanTagsF, h]
  rw [scanTagsF_fuel rest.length cs.length rest (by omega) le_rfl]

theorem scanTags_cons_none {marker c : Char} {cs : List Char}
    (h : attemptFind marker (c :: cs) = none) :
    scanTags marker (c :: cs) = scanTags marker cs := by
  unfold scanTags
  simp only [List.length_cons, scanTagsF, h]

theorem findSome_eq_some_ex {α β : Type} {f : α → Option β} {l : List α}
    {b : β} (h : l.findSome? f = some b) : ∃ a ∈ l, f a = some b := by
  induction l with
  | nil => simp [List.findSome?] at h
  | cons a as ih =>
    rw [List.findSome?] at h
    cases hfa : f a with
    | some c =>
      rw [hfa] at h
      injection h with h1
      exact ⟨a, List.mem_cons_self a as, h1 ▸ hfa⟩
    | none =>
      rw [hfa] at h
      obtain ⟨x, hx, hfx⟩ := ih h
      exact ⟨x, List.mem_cons_of_mem _ hx, hfx⟩

theorem findSome_isSome_of_mem {α β : Type} {f : α → Option β} {l : List α}
    {a : α} (ha : a ∈ l) (hf : (f a).isSome) : (l.findSome? f).isSome := by
  induction l with
  | nil => cases ha
  | cons x xs ih =>
    rw [List.findSome?]
    cases hfx : f x with
    | some b => simp
    | none =>
      rcases List.mem_cons.mp ha with h | h
      · subst h; rw [hfx] at hf; cases hf
      · exact ih h

theorem self_mem_wsCands (l : List Char) : l ∈ wsCands l := by
  unfold wsCands
  refine List.mem_map.mpr ⟨(l.takeWhile isWsChar).length, ?_, ?_⟩
  · exact List.mem_range.mpr (Nat.lt_succ_self _)
  · simp

theorem false_mem_g1Cands (l : List Char) : (false, l) ∈ g1Cands l := by
  unfold g1Cands
  split
  · exact List.mem_append_right _ (List.mem_singleton.mpr rfl)
  · exact List.mem_singleton.mpr rfl

theorem none_mem_dateCands (l : List Char) :
    ((none : Option String), l) ∈ dateCands l := by
  unfold dateCands
  split
  · exact List.mem_cons.mpr (Or.inr (List.mem_singleton.mpr rfl))
  · exact List.mem_singleton.mpr rfl

theorem none_mem_prioCands (l : List Char) :
    ((none : Option Char), l) ∈ prioCands l := by
  unfold prioCands
  split
  · exact List.mem_cons.mpr (Or.inr (List.mem_singleton.mpr rfl))
  · exact List.mem_singleton.mpr rfl

theorem descMatch_of_clean {l : List Char} (h1 : l ≠ []) (h2 : '\n' ∉ l) :
    descMatch l = some l := by
  unfold descMatch
  have hlast : ¬ l.getLast? = some '\n' := fun hc => h2 (List.mem_of_mem_getLast? hc)
  simp only [if_neg hlast]
  rw [if_pos ⟨h1, h2⟩]

/-- Any non-empty newline-free input matches `TASK_PATTERN`: at worst all
optional groups and all `\s*` match the empty string and `.+` takes the
whole line. -/
theorem matchTaskLine_total {s : String} (h1 : s.data ≠ []) (h2 : '\n' ∉ s.data) :
    (matchTaskLine s).isSome := by
  unfold matchTaskLine
  apply findSome_isSome_of_mem (false_mem_g1Cands s.data)
  apply findSome_isSome_of_mem (none_mem_dateCands s.data)
  apply findSome_isSome_of_mem (self_mem_wsCands s.data)
  apply findSome_isSome_of_mem (none_mem_prioCands s.data)
  apply findSome_isSome_of_mem (self_mem_wsCands s.data)
  apply findSome_isSome_of_mem (none_mem_dateCands s.data)
  apply findSome_isSome_of_mem (self_mem_wsCands s.data)
  rw [descMatch_of_clean h1 h2]
  simp

theorem prioAt_letter {l : List Char} {c : Char} {r : List Char}
    (h : prioAt l = some (c, r)) : isAsciiLetter c = true := by
  unfold prioAt at h
  split at h
  · rename_i c' rest
    split at h
    · rename_i hl
      injection h with h1
      injection h1 with h2 h3
      subst h2; exact hl
    · cases h
  · cases h

theorem mem_prioCands_letter {l : List Char} {x : Option Char × List Char}
    (hx : x ∈ prioCands l) : ∀ c, x.1 = some c → isAsciiLetter c = true := by
  unfold prioCands at hx
  split at hx
  · rename_i c' rest h
    rcases List.mem_cons.mp hx with h1 | h1
    · subst h1
      intro c hc
      simp only at hc
      injection hc with h2
      subst h2
      exact prioAt_letter h
    · rw [List.mem_singleton] at h1
      subst h1
      intro c hc
      cases hc
  · rw [List.mem_singleton] at hx
    subst hx
    intro c hc
    cases hc

/-- The priority group of any successful `TASK_PATTERN` match is a single
ASCII letter — of either case, since the pattern reads `\([A-Za-z]\)`. -/
theorem matchTaskLine_priority {s : String} {g : RawGroups}
    (h : matchTaskLine s = some g) :
    ∀ c, g.priority = some c → isAsciiLetter c = true := by
  unfold matchTaskLine at h
  obtain ⟨p1, hp1, h⟩ := findSome_eq_some_ex h
  obtain ⟨p2, hp2, h⟩ := findSome_eq_some_ex h
  obtain ⟨r3, hr3, h⟩ := findSome_eq_some_ex h
  obtain ⟨p3, hp3, h⟩ := findSome_eq_some_ex h
  obtain ⟨r5, hr5, h⟩ := findSome_eq_some_ex h
  obtain ⟨p4, hp4, h⟩ := findSome_eq_some_ex h
  obtain ⟨r7, hr7, h⟩ := findSome_eq_some_ex h
  cases hd : descMatch r7 with
  | none => rw [hd] at h; cases h
  | some d =>
    rw [hd] at h
    injection h with h1
    subst h1
    intro c hc
    exact mem_prioCands_letter hp3 c hc

theorem scanTags_nil (marker : Char) : scanTags marker [] = [] := rfl

theorem head_dropWhile_not (p : Char → Bool) (l : List Char) {c : Char}
    (h : (l.dropWhile p).head? = some c) : p c = false := by
  induction l with
  | nil => cases h
  | cons a as ih =>
    rw [List.dropWhile_cons] at h
    by_cases hp : p a = true
    · rw [if_pos hp] at h; exact ih h
    · rw [if_neg hp] at h
      injection h with h1
      subst h1
      exact Bool.eq_false_iff.mpr hp

theorem attemptSub_rest_head {l rest : List Char} (h : attemptSub l = some rest)
    {c : Char} (hc : rest.head? = some c) : isWordChar c = false := by
  unfold attemptSub at h
  split at h
  · rename_i m w r heq
    split at h
    · injection h with h1; subst h1
      exact head_dropWhile_not _ _ hc
    · cases h
  · cases h

/-- If the output of the `re.sub` scan starts with a word character, that
character was the very first input character: a deleted match is always
followed by a non-word character (maximality of the greedy `\w+`). -/
theorem subTags_head_word :
    ∀ (n : Nat) (l : List Char), l.length ≤ n → ∀ {c : Char},
      (subTags l).head? = some c → isWordChar c = true → l.head? = some c := by
  intro n
  induction n with
  | zero =>
    intro l hn c h hw
    have hl : l = [] := List.length_eq_zero.mp (Nat.le_zero.mp hn)
    subst hl
    rw [subTags_nil] at h
    cases h
  | succ n ih =>
    intro l hn c h hw
    cases l with
    | nil => rw [subTags_nil] at h; cases h
    | cons a cs =>
      cases hma : attemptSub (a :: cs) with
      | some rest =>
        rw [subTags_cons_some hma] at h
        have hlt := attemptSub_length hma
        simp only [List.length_cons] at hn hlt
        have hrest := ih rest (by omega) h hw
        have hbad := attemptSub_rest_head hma hrest
        rw [hw] at hbad
        cases hbad
      | none =>
        rw [subTags_cons_none hma] at h
        simp only [List.head?_cons] at h ⊢
        exact h

theorem noTagLike_cons {c : Char} {l : List Char}
    (hhead : ∀ b, l.head? = some b → ((c == '@' || c == '+') && isWordChar b) = false)
    (htail : noTagLike l = true) : noTagLike (c :: l) = true := by
  cases l with
  | nil => rfl
  | cons b rest =>
    rw [noTagLike]
    rw [hhead b rfl, htail]
    rfl

/-- After the `re.sub` scan no `@`/`+` is followed by a word character:
every literal `[@+]\w+` substring has been deleted, and deletions cannot
create a new one. -/
theorem noTagLike_subTags (l : List Char) : noTagLike (subTags l) = true := by
  suffices h : ∀ (n : Nat) (l : List Char), l.length ≤ n →
      noTagLike (subTags l) = true from h l.length l le_rfl
  intro n
  induction n with
  | zero =>
    intro l hn
    have hl : l = [] := List.length_eq_zero.mp (Nat.le_zero.mp hn)
    subst hl
    rw [subTags_nil]
    rfl
  | succ n ih =>
    intro l hn
    cases l with
    | nil => rw [subTags_nil]; rfl
    | cons c cs =>
      simp only [List.length_cons] at hn
      cases hma : attemptSub (c :: cs) with
      | some rest =>
        rw [subTags_cons_some hma]
        have hlt := attemptSub_length hma
        simp only [List.length_cons] at hlt
        exact ih rest (by omega)
      | none =>
        rw [subTags_cons_none hma]
        refine noTagLike_cons ?_ (ih cs (by omega))
        intro b hb
        cases hw : isWordChar b with
        | false => simp [hw]
        | true =>
          have hcs : cs.head? = some b := subTags_head_word cs.length cs le_rfl hb hw
          cases hm : (c == '@' || c == '+') with
          | false => simp [hm]
          | true =>
            exfalso
            have hcc : c = '@' ∨ c = '+' := by
              have := hm
              simp only [Bool.or_eq_true, beq_iff_eq] at this
              exact this
            have hcw : isWsChar c = false := by
              rcases hcc with h | h
              · rw [h]; rfl
              · rw [h]; rfl
            cases cs with
            | nil => cases hcs
            | cons b' cs' =>
              injection hcs with hb'
              subst hb'
              unfold attemptSub at hma
              rw [List.dropWhile_cons, if_neg (by simp [hcw])] at hma
              simp [hm, hw] at hma

theorem stripChars_sublist (l : List Char) : List.Sublist (stripChars l) l := by
  unfold stripChars
  have h1 : List.Sublist (l.dropWhile isWsChar) l := List.dropWhile_sublist _
  have h2 : List.Sublist ((l.dropWhile isWsChar).reverse.dropWhile isWsChar)
      (l.dropWhile isWsChar).reverse := List.dropWhile_sublist _
  have h3 := h2.reverse
  rw [List.reverse_reverse] at h3
  exact h3.trans h1

/-- `read_tasks` never fails: by `matchTaskLine_total` every stripped
non-blank line matches the pattern. -/
theorem read_tasks_total (today : String) (lines : List String)
    (h : ∀ l ∈ lines, '\n' ∉ l.data) : (read_tasks today lines).isSome := by
  induction lines with
  | nil => rfl
  | cons l ls ih =>
    have hl := h l (List.mem_cons_self _ _)
    have hls : ∀ x ∈ ls, '\n' ∉ x.data := fun x hx => h x (List.mem_cons_of_mem _ hx)
    rw [read_tasks]
    by_cases he : pyStrip l = ""
    · rw [if_pos he]
      exact ih hls
    · rw [if_neg he]
      have hne : (pyStrip l).data ≠ [] := by
        intro hc
        apply he
        have : pyStrip l = String.mk (pyStrip l).data := rfl
        rw [this, hc]
      have hnn : '\n' ∉ (pyStrip l).data :=
        fun hc => hl ((stripChars_sublist l.data).subset hc)
      have htot := matchTaskLine_total hne hnn
      unfold Task.from_task_string
      cases hm : matchTaskLine (pyStrip l) with
      | none => rw [hm] at htot; cases htot
      | some g =>
        obtain ⟨ts, hts⟩ := Option.isSome_iff_exists.mp (ih hls)
        simp only [hts, Option.map_some']
        rfl

/-! Claim theorems. -/

/-- C1: the round-trip contract fails on the code.  The well-formed task
`{description "Buy milk", completed false, no priority, createdDate
"2024-01-01", no completedDate, no tags}` serializes to the line
`"2024-01-01 Buy milk"`; re-parsing that line puts the date into
`completedDate` (the `completed_date` group of `TASK_PATTERN` matches a
leading date even without the `x` marker) and `Task.__init__` replaces the
now-absent `createdDate` by the current date.  So `completedDate`,
`createdDate` (for any `today ≠ "2024-01-01"`) and the completion
invariant are all violated by `parse(serialize(t))`. -/
theorem C1_roundtrip_fails_eval :
    Task.to_string ⟨"Buy milk", false, none, "2024-01-01", none, [], [], []⟩ =
      "2024-01-01 Buy milk" ∧
    ∀ today : String,
      Task.from_task_string today "2024-01-01 Buy milk" =
        some ⟨"Buy milk", false, none, today, some "2024-01-01", [], [], []⟩ :=
  ⟨rfl, fun _ => rfl⟩

/-- C2: the completion invariant fails on parsing.  The non-completed line
`"2024-01-01 Pay bills"` yields a task with `completed = false` but
`completedDate = "2024-01-01"`, because the `completed_date` group of
`TASK_PATTERN` is not guarded by the `x` marker. -/
theorem C2_completion_invariant_fails_eval :
    ∀ today : String,
      Task.from_task_string today "2024-01-01 Pay bills" =
        some ⟨"Pay bills", false, none, today, some "2024-01-01", [], [], []⟩ :=
  fun _ => rfl

/-- C3: parsing a stored line without a created date does inject today's
date (`Task.__init__` defaults `created_date or datetime.now()` on every
construction path, including `from_task_string`), and `to_string`
unconditionally emits the created date. -/
theorem C3_created_date_injected_eval :
    (∀ today : String,
      Task.from_task_string today "Buy groceries" =
        some ⟨"Buy groceries", false, none, today, none, [], [], []⟩) ∧
    Task.to_string ⟨"Buy groceries", false, none, "2025-10-12", none, [], [], []⟩ =
      "2025-10-12 Buy groceries" :=
  ⟨fun _ => rfl, rfl⟩

/-- C4: `do_switch` does not switch the session's active store.  It
rebinds the module-level globals `td_manager`/`td` to the newly loaded
file, but `self.td` / `self.td_manager` — the store every subsequent shell
command operates on — keep the old tasks and path.  Here the shell holds
the store of `a.txt` with one task "Task alpha"; after switching to
`b.txt` (containing "Task beta") the shell fields are unchanged and only
the dead globals hold the new store. -/
theorem C4_switch_leaves_shell_store_eval :
    do_switch "2025-10-12" (some "b.txt")
        (fun f => if f = "b.txt" then ["Task beta"] else [])
        ⟨[⟨"Task alpha", false, none, "2025-10-11", none, [], [], []⟩],
          "a.txt", none, none⟩ =
      ⟨[⟨"Task alpha", false, none, "2025-10-11", none, [], [], []⟩],
        "a.txt", some "b.txt",
        some [⟨"Task beta", false, none, "2025-10-12", none, [], [], []⟩]⟩ ∧
    ([⟨"Task alpha", false, none, "2025-10-11", none, [], [], []⟩] :
        List Task) ≠
      [⟨"Task beta", false, none, "2025-10-12", none, [], [], []⟩] :=
  ⟨rfl, by decide⟩

/-- C5, counterexample: `TASK_PATTERN` accepts `\([A-Za-z]\)`, so the line
`"(a) Buy milk"` parses to a task whose priority is the lowercase letter
`'a'` — the claim that every parsed priority is uppercase A–Z is false. -/
theorem C5_lowercase_priority_counterexample :
    Task.from_task_string "2025-10-12" "(a) Buy milk" =
      some ⟨"Buy milk", false, some 'a', "2025-10-12", none, [], [], []⟩ ∧
    ¬('A' ≤ 'a' ∧ 'a' ≤ 'Z') :=
  ⟨rfl, by decide⟩

/-- C5, amended: a task accepted by `do_add` has (if any) a priority of
exactly one character, and that character passes the `isalpha` and
`isupper` tests the validator runs — a single uppercase letter in
Python's Unicode sense, not necessarily in A–Z (the real built-ins also
accept, e.g., `'É'`); a task produced by parsing has (if any) a single
ASCII letter priority, of either case.  The first part holds for every
instantiation of the two character tests, in particular the real Unicode
ones. -/
theorem C5_priority_amended :
    (∀ (isalpha isupper : Char → Bool) (today descRaw priorityRaw : String)
        (projects contexts : List String)
        (st : StoreState) (task : Task) (st' : StoreState),
        do_add isalpha isupper today descRaw priorityRaw projects contexts st =
          some (task, st') →
        ∀ c, task.priority = some c → isalpha c = true ∧ isupper c = true) ∧
    (∀ (today line : String) (task : Task),
        Task.from_task_string today line = some task →
        ∀ c, task.priority = some c → isAsciiLetter c = true) := by
  constructor
  · intro isalpha isupper today d p prj ctx st task st' h c hc
    simp only [do_add] at h
    by_cases h1 : pyStrip d = ""
    · rw [if_pos h1] at h
      cases h
    · rw [if_neg h1] at h
      cases hv : PriorityValidator.validate isalpha isupper p with
      | false =>
        rw [hv] at h
        simp only [Bool.not_false, if_true] at h
        cases h
      | true =>
        rw [hv] at h
        simp only [Bool.not_true, Bool.false_eq_true, if_false] at h
        injection h with h1'
        injection h1' with h2 h3
        subst h2
        simp only [Task.init] at hc
        cases hm : (pyStrip p).data with
        | nil =>
          rw [hm] at hc
          cases hc
        | cons c' cs =>
          cases cs with
          | nil =>
            rw [hm] at hc
            simp only at hc
            injection hc with h4
            subst h4
            have hvt := hv
            unfold PriorityValidator.validate at hvt
            rw [hm] at hvt
            simp only [Bool.and_eq_true] at hvt
            exact hvt
          | cons c'' cs' =>
            have hvt := hv
            unfold PriorityValidator.validate at hvt
            rw [hm] at hvt
            cases hvt
  · intro today line task h c hc
    unfold Task.from_task_string at h
    cases hm : matchTaskLine line with
    | none => rw [hm] at h; cases h
    | some g =>
      rw [hm] at h
      injection h with h1
      subst h1
      exact matchTaskLine_priority hm c hc

/-- C5, witness for the amended theorem: `do_add` (instantiated at the
ASCII character tests) with priority `"A"` yields a priority passing both
tests, and parsing `"(a) Buy milk"` yields an ASCII-letter priority. -/
theorem C5_priority_amended_witness :
    (Char.isAlpha 'A' = true ∧ Char.isUpper 'A' = true) ∧
    isAsciiLetter 'a' = true := by
  constructor
  · exact C5_priority_amended.1 Char.isAlpha Char.isUpper "2025-10-12"
      "Buy milk" "A" [] [] ⟨[], []⟩
      ⟨"Buy milk", false, some 'A', "2025-10-12", none, [], [], []⟩
      ⟨[⟨"Buy milk", false, some 'A', "2025-10-12", none, [], [], []⟩],
        ["(A) 2025-10-12 Buy milk"]⟩
      rfl 'A' rfl
  · exact C5_priority_amended.2 "2025-10-12" "(a) Buy milk"
      ⟨"Buy milk", false, some 'a', "2025-10-12", none, [], [], []⟩
      rfl 'a' rfl

/-- C6: a 1-based index outside `[1, count]` makes both `do_complete` and
`do_remove` take the rejection branch: no task is mutated, nothing is
saved, the whole store state (task list and backing file) is unchanged. -/
theorem C6_out_of_range_no_mutation :
    ∀ (today : String) (arg : Int) (st : StoreState),
      (arg < 1 ∨ arg > st.tasks.length) →
      do_complete today arg st = st ∧ do_remove arg st = (none, st) := by
  intro today arg st h
  have hc : ¬(0 ≤ arg - 1 ∧ arg - 1 < (st.tasks.length : Int)) := by
    rcases h with h | h <;> omega
  constructor
  · unfold do_complete
    rw [if_neg hc]
  · unfold do_remove
    rw [if_neg hc]

/-- C6, witness: on the empty store both `completeAt(1)` and `removeAt(1)`
reject and leave the store untouched. -/
theorem C6_out_of_range_witness :
    do_complete "2025-10-12" 1 ⟨[], []⟩ = ⟨[], []⟩ ∧
    do_remove 1 ⟨[], []⟩ = (none, ⟨[], []⟩) :=
  C6_out_of_range_no_mutation "2025-10-12" 1 ⟨[], []⟩ (by decide)

/-- C7: indices are 1-based positions.  On `[A, B, C]`, `remove 2` returns
`B` and leaves `[A, C]` (rewriting the file accordingly); a following
`complete 2` then acts on `C`, which has shifted down to position 2. -/
theorem C7_remove_shifts_indices :
    ∀ (today : String) (A B C : Task) (f1 f2 : List String),
      do_remove 2 ⟨[A, B, C], f1⟩ =
        (some B, ⟨[A, C], [A.to_string, C.to_string]⟩) ∧
      do_complete today 2 ⟨[A, C], f2⟩ =
        ⟨[A, C.mark_completed today],
          [A.to_string, (C.mark_completed today).to_string]⟩ :=
  fun _ _ _ _ _ _ => ⟨rfl, rfl⟩

/-- C8: the spec's parse and serialize examples, verified bit for bit
against the embedded code. -/
theorem C8_example_line_eval :
    ∀ today : String,
      Task.from_task_string today
          "x 2024-01-02 (A) 2024-01-01 Buy milk @store +errands" =
        some ⟨"Buy milk", true, some 'A', "2024-01-01", some "2024-01-02",
          [], ["store"], ["errands"]⟩ ∧
      Task.to_string ⟨"Buy milk", true, some 'A', "2024-01-01",
          some "2024-01-02", [], ["store"], ["errands"]⟩ =
        "x 2024-01-02 (A) 2024-01-01 Buy milk @store +errands" :=
  fun _ => ⟨rfl, rfl⟩

/-- C9: the anchored pattern matches every non-empty newline-free line (at
worst everything lands in the `.+` description group), so the
`InvalidTaskLine` branch is unreachable and `read_tasks` succeeds on every
file (its lines contain no embedded newline by construction). -/
theorem C9_pattern_total_load_succeeds :
    (∀ s : String, s.data ≠ [] → '\n' ∉ s.data → (matchTaskLine s).isSome) ∧
    (∀ (today : String) (lines : List String),
      (∀ l ∈ lines, '\n' ∉ l.data) → (read_tasks today lines).isSome) :=
  ⟨fun _ h1 h2 => matchTaskLine_total h1 h2,
   fun today lines h => read_tasks_total today lines h⟩

/-- C9, witness: the one-character line `"z"` matches, and a two-task file
with a blank line in the middle loads. -/
theorem C9_pattern_total_witness :
    (matchTaskLine "z").isSome ∧
    (read_tasks "2025-10-12" ["Task one", "", "Task two"]).isSome :=
  ⟨C9_pattern_total_load_succeeds.1 "z" (by decide) (by decide),
   C9_pattern_total_load_succeeds.2 "2025-10-12" ["Task one", "", "Task two"]
     (by decide)⟩

/-- C10: during parsing every literal `[@+]\w+` substring of the
description is deleted (`noTagLike` holds of every `re.sub` output, even
for occurrences not preceded by whitespace), while only
whitespace-preceded occurrences are recorded: `"e@mail"` parses to
description `"e"` with empty contexts/projects, and
`"call e@mail now"` to `"call e now"` — text vanishes without appearing in
any tag set. -/
theorem C10_sub_deletes_all_tags :
    (∀ l : List Char, noTagLike (subTags l) = true) ∧
    (∀ today : String,
      Task.from_task_string today "e@mail" =
        some ⟨"e", false, none, today, none, [], [], []⟩) ∧
    (∀ today : String,
      Task.from_task_string today "call e@mail now" =
        some ⟨"call e now", false, none, today, none, [], [], []⟩) :=
  ⟨noTagLike_subTags, fun _ => rfl, fun _ => rfl⟩

end TodoTxt
